import Mathlib

/-!
Verification development for the `nexty_project` job-application service.

The Python sources under `jobs/utils.py` and `jobs/views.py` are shallowly
embedded below.  Pure string manipulation is translated to functions on
`List Char` / `String`; the external libraries (rapidfuzz, pdfminer,
python-docx) are abstracted as explicit parameters (availability flags and
outcome values); file-system and stream effects are modelled by explicit
state passing on a small record type; Python floats are modelled by `ℚ`
with Python's banker's rounding made explicit.
-/

namespace Nexty

/-! ### Basic Python string operations (ASCII model) -/

/-- `str.lower` on a single character (ASCII model): maps `A`–`Z` to
`a`–`z` and leaves every other character unchanged. -/
def pyLowerChar (c : Char) : Char :=
  if 'A' ≤ c ∧ c ≤ 'Z' then Char.ofNat (c.toNat + 32) else c

/-- `str.lower` (ASCII model). -/
def pyLower (s : String) : String :=
  String.mk (s.toList.map pyLowerChar)

/-- Python `str.strip` whitespace class: space, tab, newline, carriage
return, vertical tab, form feed. -/
def pySpaceChar (c : Char) : Bool :=
  c = ' ' || c = '\t' || c = '\n' || c = '\r' || c = '\x0b' || c = '\x0c'

/-- `str.strip()`: removes leading and trailing whitespace. -/
def pyStrip (s : String) : String :=
  String.mk (((s.toList.dropWhile pySpaceChar).reverse.dropWhile pySpaceChar).reverse)

/-- Does `needle` occur at the start of `hay`? (helper for substring search). -/
def segAt : List Char → List Char → Bool
  | [], _ => true
  | _ :: _, [] => false
  | a :: as, b :: bs => a = b && segAt as bs

/-- Does `needle` occur somewhere inside `hay`?  Mirrors Python's
`needle in hay` on strings; in particular the empty needle always occurs. -/
def occursIn : List Char → List Char → Bool
  | n, [] => segAt n []
  | n, c :: rest => segAt n (c :: rest) || occursIn n rest

/-- Python's `sub in s` substring test on `String`. -/
def strContainsSub (hay needle : String) : Bool :=
  occursIn needle.toList hay.toList

/-! ### The tokenizer `normalize_tokens` (jobs/utils.py, lines 124–131)

Python: `re.findall(r'\b[a-zA-Z0-9+#\.\-]+\b', text.lower())`.

We embed the regex semantics directly: a match starts at a position where
`\b` holds and the character is in the bracket class, the `+` consumes the
maximal run of class characters, and the trailing `\b` makes the engine
backtrack to the longest end position that is a word boundary; the scan
then resumes at the match end, or one character further on failure. -/

/-- Python `\w` word character (ASCII model): letters, digits, underscore. -/
def wordChar (c : Char) : Bool :=
  ('a' ≤ c && c ≤ 'z') || ('A' ≤ c && c ≤ 'Z') || ('0' ≤ c && c ≤ '9') || c = '_'

/-- Bracket class `[a-zA-Z0-9+#\.\-]` of the tokenizer regex. -/
def tokenChar (c : Char) : Bool :=
  ('a' ≤ c && c ≤ 'z') || ('A' ≤ c && c ≤ 'Z') || ('0' ≤ c && c ≤ '9') ||
    c = '+' || c = '#' || c = '.' || c = '-'

/-- Word-character test on an optional character; out-of-range positions
count as non-word, as in the regex `\b` semantics. -/
def wordOpt : Option Char → Bool
  | none => false
  | some c => wordChar c

/-- Given the maximal run of class characters and the character following
the run, find the longest nonempty prefix of the run whose end position is
a word boundary (`\b` backtracking of the trailing boundary).  Returns the
matched token and the unconsumed remainder of the run. -/
def cutAtBoundary : List Char → Option Char → Option (List Char × List Char)
  | [], _ => none
  | [c], nxt => if wordChar c ≠ wordOpt nxt then some ([c], []) else none
  | c :: c2 :: rest, nxt =>
    match cutAtBoundary (c2 :: rest) nxt with
    | some (tok, rem) => some (c :: tok, rem)
    | none => if wordChar c ≠ wordChar c2 then some ([c], c2 :: rest) else none

/-- The left-to-right scan of `re.findall` for the token pattern.  `prev`
is the character before the current position (`none` at the start of the
text); `fuel` bounds the recursion and any value above the text length is
enough. -/
def scanTok : Nat → Option Char → List Char → List (List Char)
  | 0, _, _ => []
  | _ + 1, _, [] => []
  | fuel + 1, prev, c :: rest =>
    if tokenChar c && (wordOpt prev != wordChar c) then
      match cutAtBoundary (List.takeWhile tokenChar (c :: rest))
          (List.dropWhile tokenChar (c :: rest)).head? with
      | some (tok, remRun) =>
        tok :: scanTok fuel tok.getLast? (remRun ++ List.dropWhile tokenChar (c :: rest))
      | none => scanTok fuel (some c) rest
    else scanTok fuel (some c) rest

/-- `normalize_tokens` (jobs/utils.py, lines 124–131): lower-case the text
and extract the regex token matches. -/
def normalize_tokens (text : String) : List String :=
  if text = "" then []
  else
    let l := (pyLower text).toList
    (scanTok (l.length + 1) none l).map String.mk

/-! ### The three-tier keyword matcher and `compute_ats_score`
(jobs/utils.py, lines 134–178)

`rapidfuzz` is abstracted: `hasFuzz` models `_HAS_RAPIDFUZZ and fuzz is
not None`, and `fr` models `fuzz.partial_ratio` as an oracle returning a
rational similarity score. -/

/-- The matching tiers of the loop body (lines 156–169), applied to the
already stripped and lower-cased keyword `k`:
exact token membership, then substring containment in the joined token
text, then the fuzzy tier when available. -/
def keywordMatchTier (hasFuzz : Bool) (fr : String → String → ℚ) (th : ℚ)
    (resume_tokens : List String) (rt : String) (k : String) : Bool :=
  if resume_tokens.contains k then true
  else if strContainsSub rt k then true
  else if hasFuzz then decide (th ≤ fr k rt) else false

/-- Classification of one raw keyword `kw` against a resume text: the
keyword is stripped and lower-cased (line 153) and run through the tiers. -/
def keywordMatchesKw (hasFuzz : Bool) (fr : String → String → ℚ) (th : ℚ)
    (resume_text : String) (kw : String) : Bool :=
  keywordMatchTier hasFuzz fr th (normalize_tokens resume_text)
    (String.intercalate " " (normalize_tokens resume_text)) (pyLower (pyStrip kw))

/-- Python's `round` to integer: banker's rounding (round half to even). -/
def pyRoundInt (q : ℚ) : ℤ :=
  if q - ⌊q⌋ = 1 / 2 then (if Even ⌊q⌋ then ⌊q⌋ else ⌊q⌋ + 1) else round q

/-- Python's `round(x, 1)`: banker's rounding to one decimal digit. -/
def pyRound1 (q : ℚ) : ℚ :=
  (pyRoundInt (10 * q) : ℚ) / 10

/-- The loop body of `compute_ats_score` (lines 150–174): empty keywords
are skipped, matched keywords are appended to the first list, missing ones
to the second. -/
def atsStep (hasFuzz : Bool) (fr : String → String → ℚ) (th : ℚ) (resume_text : String)
    (acc : List String × List String) (kw : String) : List String × List String :=
  if kw = "" then acc
  else if keywordMatchesKw hasFuzz fr th resume_text kw then (acc.1 ++ [kw], acc.2)
  else (acc.1, acc.2 ++ [kw])

/-- `compute_ats_score` (jobs/utils.py, lines 134–178).  Returns
`(score_percent, matched, missing)`. -/
def compute_ats_score (hasFuzz : Bool) (fr : String → String → ℚ) (th : ℚ)
    (job_keywords : List String) (resume_text : String) :
    ℚ × List String × List String :=
  let mm := job_keywords.foldl (atsStep hasFuzz fr th resume_text) ([], [])
  let total : ℕ := if job_keywords = [] then 1 else job_keywords.length
  let score_percent := pyRound1 (100 * (mm.1.length : ℚ) / (total : ℚ))
  (score_percent, mm.1, mm.2)

/-! ### Text extraction from uploads (jobs/utils.py, lines 26–100)

The external parsers are abstracted: `docxAvail` models `docx is not None`,
`pdfAvail` models `extract_text_from_pdf is not None`, and the parse
outcomes are passed in as `Except` values (`Except.error` models the
library raising an exception on the given bytes).  File-system and stream
effects are modelled by explicit state passing on `FileState`. -/

/-- Caller-visible effect state around `extract_text`: the set of live
temporary files (as identifiers) and the read position and total size of
the uploaded stream. -/
structure FileState where
  temps : List Nat
  pos : Nat
  size : Nat

/-- A temporary-file identifier not currently live. -/
def freshTemp (l : List Nat) : Nat :=
  l.foldr max 0 + 1

/-- `extract_text_from_docx` (jobs/utils.py, lines 26–53), called on a
path (as `extract_text` does): if the `docx` library is missing it returns
the empty string; otherwise `docx.Document` runs — a parse error is NOT
caught here (there is no `except` clause, only `finally`), and on success
the non-empty paragraph texts are joined with newlines. -/
def extract_text_from_docx (docxAvail : Bool)
    (parseResult : Except Unit (List String)) : Except Unit String :=
  if docxAvail then
    match parseResult with
    | Except.ok paragraphs =>
      Except.ok (String.intercalate "\n" (paragraphs.filter (fun p => p ≠ "")))
    | Except.error e => Except.error e
  else Except.ok ""

/-- `extract_text` (jobs/utils.py, lines 56–100).  Reads the upload (the
stream position moves to its end), writes a temporary file, routes to the
PDF branch (whose parse errors are caught and replaced by `''`, and whose
`None` result is replaced by `''` via `or ''`) or to the DOCX branch
(whose parse errors are not caught), and in the `finally` block deletes
the temporary file and seeks the original stream back to position 0 on
every exit path. -/
def extract_text (isPdf pdfAvail docxAvail : Bool)
    (pdfParse : Except Unit (Option String))
    (docxParse : Except Unit (List String)) (s : FileState) :
    Except Unit String × FileState :=
  let s1 : FileState := ⟨s.temps, s.size, s.size⟩
  let t := freshTemp s1.temps
  let s2 : FileState := ⟨s1.temps ++ [t], s1.pos, s1.size⟩
  let r : Except Unit String :=
    if isPdf && pdfAvail then
      match pdfParse with
      | Except.ok txt => Except.ok (txt.getD "")
      | Except.error _ => Except.ok ""
    else extract_text_from_docx docxAvail docxParse
  let s3 : FileState := ⟨s2.temps.erase t, 0, s2.size⟩
  (r, s3)

/-! ### Structured resumes (jobs/utils.py, lines 103–121)

A resume's JSON document modelled with `Option` for absent keys; Python's
`dict.get(k, default)` becomes `Option.getD`. -/

structure PersonalJson where
  full_name : Option String
  headline : Option String
  location : Option String

structure EducationJson where
  school : Option String
  degree : Option String
  details : Option String
  duration : Option String

structure ExperienceJson where
  title : Option String
  company : Option String
  description : Option String
  duration : Option String

structure ProjectJson where
  title : Option String
  tech : Option String
  description : Option String
  duration : Option String

structure ResumeJson where
  personal : Option PersonalJson
  summary : Option String
  education : Option (List EducationJson)
  experience : Option (List ExperienceJson)
  projects : Option (List ProjectJson)
  skills : Option (List String)
  achievements : Option String

/-- `resume_json_to_text` (jobs/utils.py, lines 103–121): collect the
parts in the fixed source order and join the truthy (non-empty) ones with
newlines. -/
def resume_json_to_text (r : ResumeJson) : String :=
  let personal := r.personal.getD ⟨none, none, none⟩
  let parts : List String :=
    [personal.full_name.getD "", personal.headline.getD "",
      personal.location.getD "", r.summary.getD ""]
    ++ (r.education.getD []).map (fun e =>
        String.intercalate " "
          [e.school.getD "", e.degree.getD "", e.details.getD "", e.duration.getD ""])
    ++ (r.experience.getD []).map (fun ex =>
        String.intercalate " "
          [ex.title.getD "", ex.company.getD "", ex.description.getD "", ex.duration.getD ""])
    ++ (r.projects.getD []).map (fun p =>
        String.intercalate " "
          [p.title.getD "", p.tech.getD "", p.description.getD "", p.duration.getD ""])
    ++ [String.intercalate " " (r.skills.getD [])]
    ++ [r.achievements.getD ""]
  String.intercalate "\n" (parts.filter (fun p => p ≠ ""))

/-! ### Job-keyword fallback (jobs/views.py, lines 843–846)

Python: `job_keywords = job.required_skills or []` followed by
`sorted(set([t for t in tokens if len(t) > 2]))[:40]` when empty, with
`tokens = re.findall(r'\b[a-zA-Z0-9+#\.\-]+\b', job.description.lower())`
— the same extraction as `normalize_tokens`. -/

/-- Lexicographic comparison of character lists by code point, Python's
string `<`. -/
def lexLt : List Char → List Char → Bool
  | [], [] => false
  | [], _ :: _ => true
  | _ :: _, [] => false
  | a :: as, b :: bs =>
    if a.val < b.val then true
    else if b.val < a.val then false
    else lexLt as bs

/-- Python string `<=` (lexicographic by code point). -/
def strLe (a b : String) : Bool :=
  !(lexLt b.toList a.toList)

/-- Ordered insertion for `sortStr`. -/
def insertSorted (a : String) : List String → List String
  | [] => [a]
  | b :: bs => if strLe a b then a :: b :: bs else b :: insertSorted a bs

/-- Insertion sort by Python's string order: the embedding of `sorted` on
a list of distinct strings. -/
def sortStr : List String → List String
  | [] => []
  | a :: as => insertSorted a (sortStr as)

/-- Deduplication keeping the first occurrence of each string; elements of
`seen` are dropped. -/
def dedupKeepFirst (seen : List String) : List String → List String
  | [] => []
  | a :: as =>
    if seen.contains a then dedupKeepFirst seen as
    else a :: dedupKeepFirst (a :: seen) as

/-- The tokens of the job description that are longer than 2 characters
(jobs/views.py, line 845's comprehension). -/
def fallbackTokenPool (description : String) : List String :=
  (normalize_tokens description).filter (fun t => 2 < t.length)

/-- The keyword list used by the `apply` view (jobs/views.py, lines
843–846): the posting's required skills, or, when that list is empty, the
lexicographically sorted distinct description tokens longer than 2
characters, capped at the first 40. -/
def derived_job_keywords (required_skills : List String) (description : String) :
    List String :=
  if required_skills = [] then
    (sortStr (dedupKeepFirst [] (fallbackTokenPool description))).take 40
  else required_skills

/-- Modelled from the claim's wording (for comparison with
`derived_job_keywords`): tokenize, keep tokens longer than 2 characters,
deduplicate (keeping first occurrences), cap at 40 — with no sorting
step. -/
def claimed_fallback_keywords (description : String) : List String :=
  (dedupKeepFirst [] (fallbackTokenPool description)).take 40

/-! ### The submission boundary (jobs/views.py, lines 833–848)

`apply` wraps `extract_text` in `try/except`, substituting `''` for the
resume text when extraction raises (and applying `or ''` to the result),
then best-effort seeks the upload back to 0, then always calls
`compute_ats_score`. -/

/-- The extraction boundary of the `apply` view (jobs/views.py, lines
833–841): run `extract_text`, map any exception to the empty resume text,
and seek the upload back to position 0. -/
def apply_resume_extraction (isPdf pdfAvail docxAvail : Bool)
    (pdfParse : Except Unit (Option String))
    (docxParse : Except Unit (List String)) (s : FileState) :
    String × FileState :=
  let res := extract_text isPdf pdfAvail docxAvail pdfParse docxParse s
  let text : String :=
    match res.1 with
    | Except.ok t => if t = "" then "" else t
    | Except.error _ => ""
  (text, ⟨res.2.temps, 0, res.2.size⟩)

/-- The scoring step of the `apply` view (jobs/views.py, line 848): the
submission flow always reaches `compute_ats_score` with the boundary's
resume text. -/
def apply_scoring_flow (hasFuzz : Bool) (fr : String → String → ℚ) (th : ℚ)
    (kws : List String) (isPdf pdfAvail docxAvail : Bool)
    (pdfParse : Except Unit (Option String))
    (docxParse : Except Unit (List String)) (s : FileState) :
    (ℚ × List String × List String) × FileState :=
  let et := apply_resume_extraction isPdf pdfAvail docxAvail pdfParse docxParse s
  (compute_ats_score hasFuzz fr th kws et.1, et.2)

/-! ### Helper lemmas about the matcher and the score -/

lemma occursIn_nil_left : ∀ hay : List Char, occursIn [] hay = true
  | [] => rfl
  | _ :: rest => by simp [occursIn, segAt, occursIn_nil_left rest]

lemma keywordMatchTier_empty_kw (hasFuzz : Bool) (fr : String → String → ℚ) (th : ℚ)
    (tokens : List String) (rt : String) :
    keywordMatchTier hasFuzz fr th tokens rt "" = true := by
  have h : strContainsSub rt "" = true := by
    simpa [strContainsSub] using occursIn_nil_left rt.toList
  unfold keywordMatchTier
  split_ifs <;> simp_all

lemma ats_foldl_eq (hasFuzz : Bool) (fr : String → String → ℚ) (th : ℚ) (T : String) :
    ∀ (K : List String) (acc : List String × List String),
      K.foldl (atsStep hasFuzz fr th T) acc =
        (acc.1 ++ K.filter (fun kw => (kw != "") && keywordMatchesKw hasFuzz fr th T kw),
          acc.2 ++ K.filter (fun kw => (kw != "") && !keywordMatchesKw hasFuzz fr th T kw))
  | [], acc => by simp
  | a :: K, acc => by
    rw [List.foldl_cons, ats_foldl_eq hasFuzz fr th T K]
    unfold atsStep
    by_cases h1 : a = ""
    · subst h1; simp
    · by_cases h2 : keywordMatchesKw hasFuzz fr th T a = true
      · simp [h1, h2, List.filter_cons]
      · simp [h1, h2, List.filter_cons]

lemma ats_matched_eq (hasFuzz : Bool) (fr : String → String → ℚ) (th : ℚ)
    (K : List String) (T : String) :
    (compute_ats_score hasFuzz fr th K T).2.1 =
      K.filter (fun kw => (kw != "") && keywordMatchesKw hasFuzz fr th T kw) := by
  have h := ats_foldl_eq hasFuzz fr th T K ([], [])
  simp [compute_ats_score, h]

lemma ats_missing_eq (hasFuzz : Bool) (fr : String → String → ℚ) (th : ℚ)
    (K : List String) (T : String) :
    (compute_ats_score hasFuzz fr th K T).2.2 =
      K.filter (fun kw => (kw != "") && !keywordMatchesKw hasFuzz fr th T kw) := by
  have h := ats_foldl_eq hasFuzz fr th T K ([], [])
  simp [compute_ats_score, h]

lemma ats_score_eq (hasFuzz : Bool) (fr : String → String → ℚ) (th : ℚ)
    (K : List String) (T : String) :
    (compute_ats_score hasFuzz fr th K T).1 =
      pyRound1 (100 * ((compute_ats_score hasFuzz fr th K T).2.1.length : ℚ) /
        (((if K = [] then (1 : ℕ) else K.length) : ℕ) : ℚ)) := rfl

lemma pyRoundInt_nonneg {q : ℚ} (hq : 0 ≤ q) : 0 ≤ pyRoundInt q := by
  unfold pyRoundInt
  have hfl : (0 : ℤ) ≤ ⌊q⌋ := Int.le_floor.mpr (by exact_mod_cast hq)
  split_ifs with h1 h2
  · exact hfl
  · omega
  · rw [round_eq]
    refine Int.le_floor.mpr ?_
    push_cast
    linarith

lemma pyRoundInt_le {q : ℚ} {M : ℤ} (h : q ≤ (M : ℚ)) : pyRoundInt q ≤ M := by
  unfold pyRoundInt
  split_ifs with h1 h2
  · exact le_trans (Int.floor_le_floor h) (le_of_eq (Int.floor_intCast M))
  · have hlt : ⌊q⌋ < M := by
      have hcast : ((⌊q⌋ : ℚ)) < (M : ℚ) := by linarith
      exact_mod_cast hcast
    omega
  · rw [round_eq]
    have hlt : ⌊q + 1 / 2⌋ < M + 1 := by
      refine Int.floor_lt.mpr ?_
      push_cast
      linarith
    omega

lemma pyRound1_nonneg {q : ℚ} (hq : 0 ≤ q) : 0 ≤ pyRound1 q := by
  unfold pyRound1
  have h := pyRoundInt_nonneg (q := 10 * q) (by linarith)
  have h2 : (0 : ℚ) ≤ (pyRoundInt (10 * q) : ℚ) := by exact_mod_cast h
  exact div_nonneg h2 (by norm_num)

lemma pyRound1_le_100 {q : ℚ} (hq : q ≤ 100) : pyRound1 q ≤ 100 := by
  unfold pyRound1
  have h : pyRoundInt (10 * q) ≤ (1000 : ℤ) := pyRoundInt_le (by push_cast; linarith)
  have h2 : (pyRoundInt (10 * q) : ℚ) ≤ 1000 := by exact_mod_cast h
  linarith

lemma pyRound1_intCast (n : ℤ) : pyRound1 ((n : ℚ)) = (n : ℚ) := by
  unfold pyRound1 pyRoundInt
  have h : (10 : ℚ) * (n : ℚ) = ((10 * n : ℤ) : ℚ) := by push_cast; ring
  rw [h, Int.floor_intCast, round_intCast]
  rw [if_neg (by norm_num)]
  push_cast
  ring

/-! ### Claims C1–C4 -/

/-- C1 (amended): `matched` and `missing` partition the non-empty
keywords of `K` exactly — each list is the in-order sublist of `K`
selected by the (deterministic) match outcome, the two lists are disjoint,
and a keyword lands in one of them iff it occurs in `K` and is a non-empty
string.  (As stated the claim is false: a whitespace-only keyword is not
dropped — it trims to `""`, which is a substring of every joined token
text, so it always lands in `matched`; only keywords that are already the
empty string are dropped.) -/
theorem ats_matched_missing_partition (hasFuzz : Bool) (fr : String → String → ℚ)
    (th : ℚ) (K : List String) (T : String) :
    (compute_ats_score hasFuzz fr th K T).2.1 =
        K.filter (fun kw => (kw != "") && keywordMatchesKw hasFuzz fr th T kw) ∧
    (compute_ats_score hasFuzz fr th K T).2.2 =
        K.filter (fun kw => (kw != "") && !keywordMatchesKw hasFuzz fr th T kw) ∧
    (∀ kw, ¬(kw ∈ (compute_ats_score hasFuzz fr th K T).2.1 ∧
        kw ∈ (compute_ats_score hasFuzz fr th K T).2.2)) ∧
    (∀ kw, (kw ∈ (compute_ats_score hasFuzz fr th K T).2.1 ∨
        kw ∈ (compute_ats_score hasFuzz fr th K T).2.2) ↔ (kw ∈ K ∧ kw ≠ "")) := by
  have hm := ats_matched_eq hasFuzz fr th K T
  have hn := ats_missing_eq hasFuzz fr th K T
  refine ⟨hm, hn, ?_, ?_⟩
  · rintro kw ⟨h1, h2⟩
    rw [hm] at h1
    rw [hn] at h2
    have p1 := (List.mem_filter.mp h1).2
    have p2 := (List.mem_filter.mp h2).2
    simp only [Bool.and_eq_true, bne_iff_ne, ne_eq, Bool.not_eq_true'] at p1 p2
    exact absurd p1.2 (by simp [p2.2])
  · intro kw
    rw [hm, hn]
    constructor
    · rintro (h | h) <;>
        · have hme := List.mem_filter.mp h
          refine ⟨hme.1, ?_⟩
          have hp := hme.2
          simp only [Bool.and_eq_true, bne_iff_ne, ne_eq] at hp
          exact hp.1
    · rintro ⟨hK, hne⟩
      by_cases hmatch : keywordMatchesKw hasFuzz fr th T kw = true
      · exact Or.inl (List.mem_filter.mpr ⟨hK, by simp [hne, hmatch]⟩)
      · exact Or.inr (List.mem_filter.mpr ⟨hK, by simp [hne, hmatch]⟩)

/-- C1 counterexample: the whitespace-only keyword `"   "` is not dropped;
against the empty resume it is classified as matched (its trimmed form
`""` is a substring of the joined token text), so it does not "appear in
neither list" as the claim requires. -/
theorem ats_whitespace_keyword_in_matched_counterexample :
    (compute_ats_score false (fun _ _ => 0) 80 ["   "] "").2.1 = ["   "] ∧
    (compute_ats_score false (fun _ _ => 0) 80 ["   "] "").2.2 = [] :=
  ⟨by decide, by decide⟩

/-- C1 witness: the partition theorem applied at a concrete input. -/
theorem ats_matched_missing_partition_witness :
    "sql" ∈ (compute_ats_score false (fun _ _ => 0) 80 ["sql"] "sql").2.1 ∨
    "sql" ∈ (compute_ats_score false (fun _ _ => 0) 80 ["sql"] "sql").2.2 := by
  have h := ats_matched_missing_partition false (fun _ _ => 0) 80 ["sql"] "sql"
  exact (h.2.2.2 "sql").mpr ⟨by decide, by decide⟩

/-- C2 (amended): the score equals `round(100 * |matched| / total, 1)`
where `total` is the length of the RAW input keyword list (empty and
whitespace entries included), or `1` when the input list is empty; and the
score always lies in `[0, 100]`.  (As stated the claim is false: the code
takes `total = len(job_keywords)` before any filtering, not the count
after dropping empties.) -/
theorem ats_score_formula_and_bounds (hasFuzz : Bool) (fr : String → String → ℚ)
    (th : ℚ) (K : List String) (T : String) :
    (compute_ats_score hasFuzz fr th K T).1 =
      pyRound1 (100 * ((compute_ats_score hasFuzz fr th K T).2.1.length : ℚ) /
        (((if K = [] then (1 : ℕ) else K.length) : ℕ) : ℚ)) ∧
    0 ≤ (compute_ats_score hasFuzz fr th K T).1 ∧
    (compute_ats_score hasFuzz fr th K T).1 ≤ 100 := by
  have hmt : (compute_ats_score hasFuzz fr th K T).2.1.length ≤
      (if K = [] then (1 : ℕ) else K.length) := by
    rw [ats_matched_eq]
    by_cases hK : K = []
    · subst hK; simp
    · rw [if_neg hK]
      exact List.length_filter_le _ K
  have ht1 : (1 : ℕ) ≤ (if K = [] then (1 : ℕ) else K.length) := by
    by_cases hK : K = []
    · simp [hK]
    · rw [if_neg hK]
      exact List.length_pos.mpr hK
  have htpos : (0 : ℚ) < (((if K = [] then (1 : ℕ) else K.length) : ℕ) : ℚ) := by
    exact_mod_cast Nat.lt_of_lt_of_le Nat.zero_lt_one ht1
  have hq0 : 0 ≤ 100 * ((compute_ats_score hasFuzz fr th K T).2.1.length : ℚ) /
      (((if K = [] then (1 : ℕ) else K.length) : ℕ) : ℚ) := by
    apply div_nonneg _ (le_of_lt htpos)
    positivity
  have hq100 : 100 * ((compute_ats_score hasFuzz fr th K T).2.1.length : ℚ) /
      (((if K = [] then (1 : ℕ) else K.length) : ℕ) : ℚ) ≤ 100 := by
    rw [div_le_iff₀ htpos]
    have hc : ((compute_ats_score hasFuzz fr th K T).2.1.length : ℚ) ≤
        (((if K = [] then (1 : ℕ) else K.length) : ℕ) : ℚ) := by exact_mod_cast hmt
    linarith
  refine ⟨ats_score_eq hasFuzz fr th K T, ?_, ?_⟩
  · rw [ats_score_eq]
    exact pyRound1_nonneg hq0
  · rw [ats_score_eq]
    exact pyRound1_le_100 hq100

/-- C2 counterexample: for `K = ["a", ""]` and resume `"a"` the code
scores `50.0` (total `= len(K) = 2`), while the claim's formula with
`total` taken after dropping empties (`= 1`) yields `100.0`. -/
theorem ats_score_raw_total_counterexample :
    (compute_ats_score false (fun _ _ => 0) 80 ["a", ""] "a").2.1 = ["a"] ∧
    (compute_ats_score false (fun _ _ => 0) 80 ["a", ""] "a").1 = 50 ∧
    pyRound1 (100 * (1 : ℚ) / 1) = 100 ∧
    (50 : ℚ) ≠ 100 := by
  refine ⟨by decide, ?_, ?_, by norm_num⟩
  · rw [ats_score_eq]
    have hm : (compute_ats_score false (fun _ _ => 0) 80 ["a", ""] "a").2.1 = ["a"] := by
      decide
    have hif : (if (["a", ""] : List String) = [] then (1 : ℕ)
        else (["a", ""] : List String).length) = 2 := by decide
    rw [hm, hif]
    have harg : 100 * (((["a"] : List String).length : ℕ) : ℚ) / ((2 : ℕ) : ℚ) =
        ((50 : ℤ) : ℚ) := by norm_num
    rw [harg, pyRound1_intCast]
    norm_num
  · rw [show (100 * (1 : ℚ) / 1 : ℚ) = ((100 : ℤ) : ℚ) by norm_num, pyRound1_intCast]
    norm_num

/-- C2 witness: the score bounds applied at a concrete input. -/
theorem ats_score_formula_and_bounds_witness :
    0 ≤ (compute_ats_score false (fun _ _ => 0) 80 ["sql", "java"] "sql").1 :=
  (ats_score_formula_and_bounds false (fun _ _ => 0) 80 ["sql", "java"] "sql").2.1

/-- C3: the matcher is exactly the short-circuit disjunction of the three
tiers in source order — exact token membership, then substring containment
in the joined token text, then the fuzzy tier, which is skipped (treated
as no-match) when no fuzzy matcher is available; a keyword appearing
verbatim as a token is matched with fuzzy matching disabled, and the
keyword `"java"` against a resume containing `"javascript"` (not as an
isolated token) is matched (via substring containment, since it is not a
token). -/
theorem keyword_match_tier_order (hasFuzz : Bool) (fr : String → String → ℚ)
    (th : ℚ) (tokens : List String) (rt : String) (k : String) :
    (keywordMatchTier hasFuzz fr th tokens rt k =
      (tokens.contains k || strContainsSub rt k || (hasFuzz && decide (th ≤ fr k rt)))) ∧
    (keywordMatchTier false fr th tokens rt k = (tokens.contains k || strContainsSub rt k)) ∧
    (tokens.contains k = true → keywordMatchTier false fr th tokens rt k = true) ∧
    (compute_ats_score false (fun _ _ => 0) 80 ["java"] "Uses JavaScript daily").2.1 =
      ["java"] ∧
    ("java" ∈ normalize_tokens "Uses JavaScript daily" → False) := by
  refine ⟨?_, ?_, ?_, by decide, by decide⟩
  · by_cases hc : k ∈ tokens <;> cases hs : strContainsSub rt k <;>
      cases hf : hasFuzz <;> simp [keywordMatchTier, hc, hs, hf]
  · by_cases hc : k ∈ tokens <;> cases hs : strContainsSub rt k <;>
      simp [keywordMatchTier, hc, hs]
  · intro h
    have hm : k ∈ tokens := by simpa using h
    simp [keywordMatchTier, hm]

/-- C3 witness: a keyword appearing verbatim as a token is matched with
the fuzzy tier disabled. -/
theorem keyword_match_tier_order_witness :
    keywordMatchTier false (fun _ _ => 0) 80 ["sql"] "sql" "sql" = true := by
  have h := keyword_match_tier_order false (fun _ _ => 0) 80 ["sql"] "sql" "sql"
  exact h.2.2.1 (by decide)

/-- C4 (amended): keywords that are already the empty string are excluded
from evaluation entirely (they appear in neither list and no error is
surfaced); but a keyword that is non-empty and only becomes empty after
trimming IS evaluated, and is always classified as matched, because its
trimmed form `""` is a substring of any joined token text.  (As stated the
claim is false for whitespace-only keywords.) -/
theorem ats_blank_keyword_behaviour (hasFuzz : Bool) (fr : String → String → ℚ)
    (th : ℚ) (K : List String) (T : String) (kw : String) :
    (kw = "" → ¬ kw ∈ (compute_ats_score hasFuzz fr th K T).2.1 ∧
      ¬ kw ∈ (compute_ats_score hasFuzz fr th K T).2.2) ∧
    (kw ∈ K → kw ≠ "" → pyStrip kw = "" →
      kw ∈ (compute_ats_score hasFuzz fr th K T).2.1) := by
  constructor
  · rintro rfl
    constructor
    · rw [ats_matched_eq]
      intro h
      have hp := (List.mem_filter.mp h).2
      simp at hp
    · rw [ats_missing_eq]
      intro h
      have hp := (List.mem_filter.mp h).2
      simp at hp
  · intro hK hne hstrip
    rw [ats_matched_eq]
    refine List.mem_filter.mpr ⟨hK, ?_⟩
    have hkm : keywordMatchesKw hasFuzz fr th T kw = true := by
      unfold keywordMatchesKw
      rw [hstrip]
      have hplw : pyLower "" = "" := rfl
      rw [hplw]
      exact keywordMatchTier_empty_kw _ _ _ _ _
    simp [hne, hkm]

/-- C4 counterexample: the keyword `"  "` (whitespace only, so empty after
trimming) is run through the matcher and lands in `matched`, instead of
being excluded from evaluation entirely as the claim requires. -/
theorem ats_blank_keyword_matched_counterexample :
    (compute_ats_score false (fun _ _ => 0) 80 ["  "] "x").2.1 = ["  "] ∧
    (compute_ats_score false (fun _ _ => 0) 80 ["  "] "x").2.2 = [] :=
  ⟨by decide, by decide⟩

/-- C4 witness: the amended behaviour applied at a concrete input. -/
theorem ats_blank_keyword_behaviour_witness :
    "  " ∈ (compute_ats_score false (fun _ _ => 0) 80 ["  "] "abc").2.1 :=
  (ats_blank_keyword_behaviour false (fun _ _ => 0) 80 ["  "] "abc" "  ").2
    (by decide) (by decide) (by decide)

/-! ### Claim C5: the tokenizer -/

lemma mem_takeWhile_of_mem {α : Type} {p : α → Bool} :
    ∀ {l : List α} {a : α}, a ∈ l.takeWhile p → p a = true :=
  fun h => List.mem_takeWhile_imp h

lemma cutAtBoundary_spec :
    ∀ (run : List Char) (nxt : Option Char) (tok rem : List Char),
      cutAtBoundary run nxt = some (tok, rem) → tok ++ rem = run ∧ tok ≠ []
  | [], _, tok, rem => by intro h; simp [cutAtBoundary] at h
  | [c], nxt, tok, rem => by
    intro h
    unfold cutAtBoundary at h
    split_ifs at h
    · obtain ⟨rfl, rfl⟩ : tok = [c] ∧ rem = [] := by
        constructor <;> · injection h with h2; injection h2 with ha hb; simp_all
      exact ⟨rfl, by simp⟩
  | c :: c2 :: rest, nxt, tok, rem => by
    intro h
    unfold cutAtBoundary at h
    cases hcut : cutAtBoundary (c2 :: rest) nxt with
    | some pr =>
      rw [hcut] at h
      obtain ⟨tok', rem'⟩ := pr
      have hih := cutAtBoundary_spec (c2 :: rest) nxt tok' rem' hcut
      injection h with h2
      obtain ⟨rfl, rfl⟩ : tok = c :: tok' ∧ rem = rem' := by
        constructor <;> · injection h2 with ha hb; simp_all
      exact ⟨by simp [hih.1], by simp⟩
    | none =>
      rw [hcut] at h
      split_ifs at h
      obtain ⟨rfl, rfl⟩ : tok = [c] ∧ rem = c2 :: rest := by
        constructor <;> · injection h with h2; injection h2 with ha hb; simp_all
      exact ⟨rfl, by simp⟩

lemma scanTok_mem :
    ∀ (fuel : Nat) (prev : Option Char) (l : List Char) (tok : List Char),
      tok ∈ scanTok fuel prev l →
        tok ≠ [] ∧ ∀ c ∈ tok, tokenChar c = true ∧ c ∈ l
  | 0, prev, l, tok => by intro h; simp [scanTok] at h
  | fuel + 1, prev, [], tok => by intro h; simp [scanTok] at h
  | fuel + 1, prev, c :: rest, tok => by
    intro h
    rw [scanTok] at h
    by_cases hcond : (tokenChar c && (wordOpt prev != wordChar c)) = true
    · rw [if_pos hcond] at h
      cases hcut : cutAtBoundary (List.takeWhile tokenChar (c :: rest))
          (List.dropWhile tokenChar (c :: rest)).head? with
      | some pr =>
        obtain ⟨tok', remRun⟩ := pr
        rw [hcut] at h
        have hspec := cutAtBoundary_spec _ _ _ _ hcut
        rcases List.mem_cons.mp h with rfl | hmem
        · refine ⟨hspec.2, ?_⟩
          intro a ha
          have haRun : a ∈ List.takeWhile tokenChar (c :: rest) := by
            rw [← hspec.1]
            exact List.mem_append_left _ ha
          exact ⟨mem_takeWhile_of_mem haRun,
            (List.takeWhile_sublist tokenChar).mem haRun⟩
        · have hih := scanTok_mem fuel tok'.getLast? (remRun ++ List.dropWhile tokenChar (c :: rest)) _ hmem
          refine ⟨hih.1, ?_⟩
          intro a ha
          refine ⟨(hih.2 a ha).1, ?_⟩
          have hmem2 := (hih.2 a ha).2
          rcases List.mem_append.mp hmem2 with h1 | h2
          · have haRun : a ∈ List.takeWhile tokenChar (c :: rest) := by
              rw [← hspec.1]
              exact List.mem_append_right _ h1
            exact (List.takeWhile_sublist tokenChar).mem haRun
          · exact (List.dropWhile_sublist tokenChar).mem h2
      | none =>
        rw [hcut] at h
        have hih := scanTok_mem fuel (some c) rest tok h
        exact ⟨hih.1, fun a ha => ⟨(hih.2 a ha).1, List.mem_cons_of_mem c (hih.2 a ha).2⟩⟩
    · rw [if_neg hcond] at h
      have hih := scanTok_mem fuel (some c) rest tok h
      exact ⟨hih.1, fun a ha => ⟨(hih.2 a ha).1, List.mem_cons_of_mem c (hih.2 a ha).2⟩⟩

/-- C5: the tokenizer returns `[]` on the empty string; on
`"Python, SQL!! Django-2.0"` it returns exactly
`["python", "sql", "django-2.0"]` (lower-cased, punctuation outside the
class skipped, `-` and `.` kept inside tokens); and in general every
produced token is non-empty and consists only of characters from the
class {letters, digits, `+`, `#`, `.`, `-`}. -/
theorem normalize_tokens_spec :
    normalize_tokens "" = [] ∧
    normalize_tokens "Python, SQL!! Django-2.0" = ["python", "sql", "django-2.0"] ∧
    (∀ (text : String) (tok : String), tok ∈ normalize_tokens text →
      tok ≠ "" ∧ ∀ c ∈ tok.toList, tokenChar c = true) := by
  refine ⟨by decide, by decide, ?_⟩
  intro text tok htok
  unfold normalize_tokens at htok
  split_ifs at htok with htext
  · simp at htok
  · obtain ⟨tl, htl, rfl⟩ := List.mem_map.mp htok
    have hspec := scanTok_mem _ none _ tl htl
    constructor
    · intro hcon
      apply hspec.1
      have : (String.mk tl).data = ("" : String).data := by rw [hcon]
      simpa using this
    · intro c hc
      exact (hspec.2 c (by simpa using hc)).1

/-- C5 witness: the general token-shape property applied to a concrete
token of a concrete text. -/
theorem normalize_tokens_spec_witness :
    ("django-2.0" : String) ≠ "" ∧
      ∀ c ∈ ("django-2.0" : String).toList, tokenChar c = true := by
  have h := normalize_tokens_spec
  exact h.2.2 "Django-2.0" "django-2.0" (by decide)

/-! ### Claims C6 and C7: extraction -/

lemma foldr_max_le_of_mem : ∀ {l : List Nat} {x : Nat}, x ∈ l → x ≤ l.foldr max 0
  | [], x => by intro h; simp at h
  | a :: l, x => by
    intro h
    rcases List.mem_cons.mp h with rfl | h2
    · exact le_max_left _ _
    · exact le_trans (foldr_max_le_of_mem h2) (le_max_right _ _)

lemma freshTemp_not_mem (l : List Nat) : freshTemp l ∉ l := by
  intro h
  have := foldr_max_le_of_mem h
  unfold freshTemp at this
  omega

lemma extract_text_state (isPdf pdfAvail docxAvail : Bool)
    (pdfParse : Except Unit (Option String))
    (docxParse : Except Unit (List String)) (s : FileState) :
    (extract_text isPdf pdfAvail docxAvail pdfParse docxParse s).2.temps = s.temps ∧
    (extract_text isPdf pdfAvail docxAvail pdfParse docxParse s).2.pos = 0 ∧
    (extract_text isPdf pdfAvail docxAvail pdfParse docxParse s).2.size = s.size := by
  refine ⟨?_, rfl, rfl⟩
  show (s.temps ++ [freshTemp s.temps]).erase (freshTemp s.temps) = s.temps
  rw [List.erase_append_right _ (freshTemp_not_mem s.temps), List.erase_cons_head]
  simp

/-- C6 (amended): on success the DOCX extractor returns the non-empty
paragraph texts in document order joined by newlines, and a missing parser
dependency yields the empty string; but a DOCX parse error is NOT mapped
to the empty string — it propagates as an exception out of
`extract_text_from_docx` and out of `extract_text` (only the PDF branch
catches parse errors and substitutes `''`); the error is recovered at the
submission boundary in the `apply` view instead. -/
theorem extract_text_docx_policy (p : Except Unit (List String))
    (paragraphs : List String) (pdfAvail : Bool)
    (pp : Except Unit (Option String)) (dp : Except Unit (List String))
    (s : FileState) :
    extract_text_from_docx false p = Except.ok "" ∧
    extract_text_from_docx true (Except.ok paragraphs) =
      Except.ok (String.intercalate "\n" (paragraphs.filter (fun q => q ≠ ""))) ∧
    extract_text_from_docx true (Except.error ()) = Except.error () ∧
    (extract_text false pdfAvail true pp (Except.error ()) s).1 = Except.error () ∧
    (extract_text true true true (Except.error ()) dp s).1 = Except.ok "" := by
  exact ⟨rfl, rfl, rfl, rfl, rfl⟩

/-- C6 counterexample: a DOCX parse failure makes the extractor raise
(`Except.error`), not return the empty string as the claim asserts. -/
theorem extract_text_docx_error_counterexample :
    extract_text_from_docx true (Except.error ()) = Except.error () ∧
    (Except.error () : Except Unit String) ≠ Except.ok "" ∧
    (extract_text false true true (Except.ok none) (Except.error ())
        ⟨[], 0, 7⟩).1 ≠ Except.ok "" :=
  ⟨rfl, fun h => Except.noConfusion h, fun h => Except.noConfusion h⟩

/-- C7: for every stream input and every extraction outcome (success,
extraction error, or exception), `extract_text` deletes the temporary
file it created (the live temp set afterwards equals the one before), and
leaves the original stream positioned at its start (position `0`), with
the stream contents (size) unchanged. -/
theorem extract_text_temp_and_seek (isPdf pdfAvail docxAvail : Bool)
    (pdfParse : Except Unit (Option String))
    (docxParse : Except Unit (List String)) (s : FileState) :
    (extract_text isPdf pdfAvail docxAvail pdfParse docxParse s).2.temps = s.temps ∧
    (extract_text isPdf pdfAvail docxAvail pdfParse docxParse s).2.pos = 0 ∧
    (extract_text isPdf pdfAvail docxAvail pdfParse docxParse s).2.size = s.size :=
  extract_text_state isPdf pdfAvail docxAvail pdfParse docxParse s

/-! ### Claim C8: structured resume flattening -/

/-- C8: structured-resume extraction concatenates, in the fixed source
order, the personal fields, summary, the space-joined education /
experience / project entry fields, the space-joined skills and the
achievements, keeps the non-empty parts and joins them with newlines;
every missing field contributes the empty string instead of an error (the
all-absent record flattens to `""`, and a record with partially absent
fields flattens without error). -/
theorem resume_json_to_text_spec (r : ResumeJson) :
    resume_json_to_text r =
      String.intercalate "\n" (List.filter (fun p => p ≠ "")
        ([(r.personal.getD ⟨none, none, none⟩).full_name.getD "",
            (r.personal.getD ⟨none, none, none⟩).headline.getD "",
            (r.personal.getD ⟨none, none, none⟩).location.getD "",
            r.summary.getD ""]
          ++ (r.education.getD []).map (fun e =>
              String.intercalate " "
                [e.school.getD "", e.degree.getD "", e.details.getD "", e.duration.getD ""])
          ++ (r.experience.getD []).map (fun ex =>
              String.intercalate " "
                [ex.title.getD "", ex.company.getD "", ex.description.getD "",
                  ex.duration.getD ""])
          ++ (r.projects.getD []).map (fun p =>
              String.intercalate " "
                [p.title.getD "", p.tech.getD "", p.description.getD "", p.duration.getD ""])
          ++ [String.intercalate " " (r.skills.getD [])]
          ++ [r.achievements.getD ""])) ∧
    resume_json_to_text ⟨none, none, none, none, none, none, none⟩ = "" ∧
    resume_json_to_text ⟨some ⟨some "Ada", none, none⟩, none,
        some [⟨some "MIT", none, none, none⟩], none, none, none, none⟩ = "Ada\nMIT   " :=
  ⟨rfl, by decide, by decide⟩

/-- C8 witness: the flattening theorem applied to the all-absent record. -/
theorem resume_json_to_text_spec_witness :
    resume_json_to_text ⟨none, none, none, none, none, none, none⟩ = "" :=
  (resume_json_to_text_spec ⟨none, none, none, none, none, none, none⟩).2.1

/-! ### Claim C9: the keyword fallback -/

lemma insertSorted_perm (a : String) : ∀ l : List String,
    (insertSorted a l).Perm (a :: l)
  | [] => List.Perm.refl _
  | b :: bs => by
    unfold insertSorted
    split_ifs
    · exact List.Perm.refl _
    · exact ((insertSorted_perm a bs).cons b).trans (List.Perm.swap a b bs)

lemma sortStr_perm : ∀ l : List String, (sortStr l).Perm l
  | [] => List.Perm.refl _
  | a :: as => (insertSorted_perm a (sortStr as)).trans ((sortStr_perm as).cons a)

lemma dedupKeepFirst_spec : ∀ (l seen : List String),
    (dedupKeepFirst seen l).Nodup ∧
      ∀ x ∈ dedupKeepFirst seen l, x ∈ l ∧ seen.contains x = false
  | [], seen => ⟨List.nodup_nil, by simp [dedupKeepFirst]⟩
  | a :: as, seen => by
    unfold dedupKeepFirst
    split_ifs with hcontains
    · have hih := dedupKeepFirst_spec as seen
      exact ⟨hih.1, fun x hx =>
        ⟨List.mem_cons_of_mem a (hih.2 x hx).1, (hih.2 x hx).2⟩⟩
    · have hih := dedupKeepFirst_spec as (a :: seen)
      constructor
      · refine List.nodup_cons.mpr ⟨?_, hih.1⟩
        intro hmem
        have hc := (hih.2 a hmem).2
        simp at hc
      · intro x hx
        rcases List.mem_cons.mp hx with rfl | h2
        · refine ⟨List.mem_cons_self _ _, ?_⟩
          simpa using hcontains
        · have h3 := hih.2 x h2
          refine ⟨List.mem_cons_of_mem a h3.1, ?_⟩
          have hc := h3.2
          simp at hc ⊢
          exact hc.2

/-- C9 (amended): when the posting supplies no required skills, the
keyword list equals the lexicographically sorted list of distinct
description tokens longer than 2 characters, capped at the first 40 (so
when more than 40 distinct tokens qualify, the 40 lexicographically
smallest are kept — the code sorts before capping, which the claim
omitted); the result has at most 40 keywords, no duplicates, and every
keyword is a description token longer than 2 characters.  When required
skills are present they are used as-is. -/
theorem derived_job_keywords_spec (skills : List String) (desc : String) :
    (skills ≠ [] → derived_job_keywords skills desc = skills) ∧
    derived_job_keywords [] desc =
      (sortStr (dedupKeepFirst [] (fallbackTokenPool desc))).take 40 ∧
    (derived_job_keywords [] desc).length ≤ 40 ∧
    (derived_job_keywords [] desc).Nodup ∧
    (∀ k ∈ derived_job_keywords [] desc, k ∈ normalize_tokens desc ∧ 2 < k.length) := by
  have heq : derived_job_keywords [] desc =
      (sortStr (dedupKeepFirst [] (fallbackTokenPool desc))).take 40 := by
    unfold derived_job_keywords
    simp
  refine ⟨?_, heq, ?_, ?_, ?_⟩
  · intro hne
    unfold derived_job_keywords
    rw [if_neg hne]
  · rw [heq]
    exact List.length_take_le _ _
  · rw [heq]
    have hnodup := (dedupKeepFirst_spec (fallbackTokenPool desc) []).1
    have hperm := sortStr_perm (dedupKeepFirst [] (fallbackTokenPool desc))
    exact (List.take_sublist _ _).nodup (hperm.nodup_iff.mpr hnodup)
  · intro k hk
    rw [heq] at hk
    have h1 := List.mem_of_mem_take hk
    have h2 := (sortStr_perm _).mem_iff.mp h1
    have h3 := (dedupKeepFirst_spec (fallbackTokenPool desc) []).2 k h2
    have h4 := List.mem_filter.mp h3.1
    exact ⟨h4.1, by simpa using h4.2⟩

set_option maxRecDepth 40000 in
/-- C9 counterexample: a description with 41 distinct qualifying tokens
whose first token `"zzz"` is lexicographically last.  The claim's
procedure (dedup in order of appearance, cap at 40) keeps `"zzz"`; the
code sorts before capping, so `"zzz"` is dropped and the two lists
differ. -/
theorem fallback_keywords_sorted_counterexample :
    "zzz" ∈ claimed_fallback_keywords
      "zzz aaa aab aac aad aae aaf aag aah aai aaj aak aal aam aan aao aap aaq aar aas aat aau aav aaw aax aay aaz aba abb abc abd abe abf abg abh abi abj abk abl abm abn" ∧
    "zzz" ∉ derived_job_keywords []
      "zzz aaa aab aac aad aae aaf aag aah aai aaj aak aal aam aan aao aap aaq aar aas aat aau aav aaw aax aay aaz aba abb abc abd abe abf abg abh abi abj abk abl abm abn" ∧
    claimed_fallback_keywords
      "zzz aaa aab aac aad aae aaf aag aah aai aaj aak aal aam aan aao aap aaq aar aas aat aau aav aaw aax aay aaz aba abb abc abd abe abf abg abh abi abj abk abl abm abn" ≠
    derived_job_keywords []
      "zzz aaa aab aac aad aae aaf aag aah aai aaj aak aal aam aan aao aap aaq aar aas aat aau aav aaw aax aay aaz aba abb abc abd abe abf abg abh abi abj abk abl abm abn" := by
  have h1 : "zzz" ∈ claimed_fallback_keywords
      "zzz aaa aab aac aad aae aaf aag aah aai aaj aak aal aam aan aao aap aaq aar aas aat aau aav aaw aax aay aaz aba abb abc abd abe abf abg abh abi abj abk abl abm abn" := by
    decide
  have h2 : "zzz" ∉ derived_job_keywords []
      "zzz aaa aab aac aad aae aaf aag aah aai aaj aak aal aam aan aao aap aaq aar aas aat aau aav aaw aax aay aaz aba abb abc abd abe abf abg abh abi abj abk abl abm abn" := by
    decide
  exact ⟨h1, h2, fun h => h2 (h ▸ h1)⟩

/-- C9 witness: when required skills are present, they are used as-is. -/
theorem derived_job_keywords_spec_witness :
    derived_job_keywords ["python"] "ignored text" = ["python"] :=
  (derived_job_keywords_spec ["python"] "ignored text").1 (by decide)

/-! ### Claim C10: the submission boundary -/

/-- C10: the submission flow is total in the extraction outcome — any
exception from `extract_text` is replaced by the empty resume text, a
seek of the upload back to position 0 is performed, the temporary-file
state is unchanged, and `compute_ats_score` is always reached with the
boundary's resume text. -/
theorem apply_flow_spec (hasFuzz : Bool) (fr : String → String → ℚ) (th : ℚ)
    (kws : List String) (isPdf pdfAvail docxAvail : Bool)
    (pdfParse : Except Unit (Option String)) (docxParse : Except Unit (List String))
    (s : FileState) :
    (apply_scoring_flow hasFuzz fr th kws isPdf pdfAvail docxAvail pdfParse docxParse s).1 =
      compute_ats_score hasFuzz fr th kws
        (match (extract_text isPdf pdfAvail docxAvail pdfParse docxParse s).1 with
          | Except.ok t => t
          | Except.error _ => "") ∧
    (apply_scoring_flow hasFuzz fr th kws isPdf pdfAvail docxAvail pdfParse docxParse
      s).2.pos = 0 ∧
    (apply_scoring_flow hasFuzz fr th kws isPdf pdfAvail docxAvail pdfParse docxParse
      s).2.temps = s.temps := by
  refine ⟨?_, rfl,
    (extract_text_state isPdf pdfAvail docxAvail pdfParse docxParse s).1⟩
  unfold apply_scoring_flow apply_resume_extraction
  cases hres : (extract_text isPdf pdfAvail docxAvail pdfParse docxParse s).1 with
  | ok t =>
    simp only [hres]
    by_cases ht : t = ""
    · subst ht
      simp
    · simp [ht]
  | error e =>
    simp [hres]

/-- C10 witness: the flow theorem applied at a concrete failing
extraction. -/
theorem apply_flow_spec_witness :
    (apply_scoring_flow false (fun _ _ => 0) 80 ["sql"] false true true
      (Except.ok none) (Except.error ()) ⟨[], 3, 9⟩).2.pos = 0 :=
  (apply_flow_spec false (fun _ _ => 0) 80 ["sql"] false true true
    (Except.ok none) (Except.error ()) ⟨[], 3, 9⟩).2.1

/-- C6 witness: successful DOCX extraction joins the non-empty paragraphs
with newlines. -/
theorem extract_text_docx_policy_witness :
    extract_text_from_docx true (Except.ok ["Hi", "", "There"]) = Except.ok "Hi\nThere" :=
  ((extract_text_docx_policy (Except.ok []) ["Hi", "", "There"] true (Except.ok none)
    (Except.error ()) ⟨[], 0, 1⟩).2.1).trans rfl

/-- C7 witness: the temp-file and seek theorem applied at a concrete
state. -/
theorem extract_text_temp_and_seek_witness :
    (extract_text true true true (Except.ok (some "x")) (Except.ok [])
      ⟨[5], 2, 9⟩).2.temps = [5] :=
  (extract_text_temp_and_seek true true true (Except.ok (some "x")) (Except.ok [])
    ⟨[5], 2, 9⟩).1

end Nexty
